import Mathlib

/-!
Verification of the node-statsd client (`lib/statsd.js`).

The JavaScript source is shallowly embedded below:

* `Client` carries the configuration fields that influence the send path
  (`host`, `port`, `pre`/`suf` for the `prefix`/`suffix` options — renamed
  because `prefix` is a Lean keyword — and the `mock` flag).  The socket
  handle is not data the encoder reads; it is represented only through
  the `SendOutcome.transmitted` constructor ("a datagram with this payload
  was handed to `socket.send` together with the callback").
* `Client.send` embeds `Client.prototype.send`.  `Math.random()` becomes
  the explicit parameter `rand`; whether `callback` is a function becomes
  the Boolean `hasCb`; JavaScript numbers for stat values are taken as
  integers (`Int`) and sample rates as rationals (`Rat`).
* `onSend` / `runBatch` embed the per-completion closure of
  `Client.prototype.sendAll` and its execution over a list of transport
  completions (the transport may deliver them in any order, so theorems
  quantify over the completion list).
* `resolveParams` embeds the positional-parameter shifting at the top of
  `Client.prototype.sendAll`, over a small universe `JVal` of JavaScript
  runtime values with the truthiness / `typeof` / `Array.isArray` tests
  used there.
-/

/-- Abstraction of JavaScript number-to-string conversion, used where the
source splices a number into the message (`':' + value`, `'|@' + sampleRate`).
The claims under study depend only on where the number is spliced, not on its
decimal rendering, so the stock rendering of `Rat` is used. -/
def ratToString (r : Rat) : String := toString r

/-- Configuration of a `Client` (constructor of `lib/statsd.js`).  `pre` and
`suf` are the `prefix` and `suffix` options (defaulting to `""`); `mock` is
the mock-mode flag. -/
structure Client where
  host : String
  port : Nat
  pre : String
  suf : String
  mock : Bool
deriving DecidableEq

/-- The observable effect of one call to `Client.prototype.send`:

* `transmitted payload` — not mock: `socket.send` was handed exactly one
  datagram with this payload, with the caller's callback attached;
* `dropped` — the sampling branch took the early `return`: nothing was
  sent and the callback was never invoked;
* `mockInvoke` — mock client with a function callback: the callback was
  invoked with `(null, 0)`;
* `mockSilent` — mock client without a function callback: nothing happens. -/
inductive SendOutcome where
  | transmitted (payload : String)
  | dropped
  | mockInvoke
  | mockSilent
deriving DecidableEq

/-- The datagrams an outcome hands to the transport (none or exactly one). -/
def SendOutcome.datagrams : SendOutcome → List String
  | .transmitted m => [m]
  | _ => []

/-- Whether the outcome invoked the callback immediately with `(null, 0)`
(only the mock path does). -/
def SendOutcome.callbackInvokedNow : SendOutcome → Bool
  | .mockInvoke => true
  | _ => false

/-- Whether the sampling branch dropped the event. -/
def SendOutcome.isDropped : SendOutcome → Bool
  | .dropped => true
  | _ => false

/-- Embedding of `Client.prototype.send`.  `rand` is the value drawn by
`Math.random()`; `hasCb` records whether `callback` is a function.
Mirrors the source line by line:

    var message = this.prefix + stat + this.suffix + ':' + value + '|' + type;
    if(sampleRate && sampleRate < 1){            -- truthy: nonzero
      if(Math.random() < sampleRate){ message += '|@' + sampleRate; }
      else { return; }                           -- .dropped
    }
    if(tags && Array.isArray(tags)){ message += '|#' + tags.join(','); }
    if(!this.mock){ socket.send(buf, …, callback) }    -- .transmitted
    else if(typeof callback === 'function'){ callback(null, 0); }
-/
def Client.send (c : Client) (stat : String) (value : Int) (type : String)
    (sampleRate : Option Rat) (rand : Rat) (tags : Option (List String))
    (hasCb : Bool) : SendOutcome :=
  let message := c.pre ++ stat ++ c.suf ++ ":" ++ toString value ++ "|" ++ type
  let sampled : Option String :=
    match sampleRate with
    | some r =>
      if r ≠ 0 ∧ r < 1 then
        if rand < r then some (message ++ "|@" ++ ratToString r) else none
      else some message
    | none => some message
  match sampled with
  | none => .dropped
  | some m =>
    let m' := match tags with
      | some ts => m ++ "|#" ++ String.intercalate "," ts
      | none => m
    if !c.mock then .transmitted m'
    else if hasCb then .mockInvoke else .mockSilent

/-- The fan-out loop of `Client.prototype.sendAll` over an array of stat
names: one `send` per name, each receiving its own `Math.random()` draw
(`draws`, positionally), all with `onSend` as callback (`hasCb := true`). -/
def Client.sendAllFan (c : Client) (stats : List String) (value : Int)
    (type : String) (sampleRate : Option Rat) (draws : List Rat)
    (tags : Option (List String)) : List SendOutcome :=
  (stats.zip draws).map fun p => c.send p.1 value type sampleRate p.2 tags true

/-- A completion delivered to `onSend` by the transport (or by the mock
path, which always delivers `ok 0`): either `(null, bytes)` or an error. -/
inductive Completion where
  | ok (bytes : Nat)
  | err (e : String)
deriving DecidableEq

/-- An invocation of the aggregate callback of `sendAll`: `callback(error)`
or `callback(null, sentBytes)`. -/
inductive CbInvocation where
  | failure (e : String)
  | success (bytes : Nat)
deriving DecidableEq

/-- The closed-over state of `sendAll`'s fan-out (`completed`, `calledback`,
`sentBytes` in the source). -/
structure BatchState where
  completed : Nat
  calledback : Bool
  sentBytes : Nat
deriving DecidableEq

/-- The state before any completion arrives. -/
def initBatch : BatchState := ⟨0, false, 0⟩

/-- Embedding of the `onSend` closure inside `Client.prototype.sendAll`.
`n` is `stat.length`; `hasCb` is `typeof callback === 'function'`.  Returns
the updated closure state and the aggregate-callback invocation this
completion performed, if any:

    function onSend(error, bytes){
      completed += 1;
      if(calledback || typeof callback !== 'function'){ return; }
      if(error){ calledback = true; return callback(error); }
      sentBytes += bytes;
      if(completed === stat.length){ callback(null, sentBytes); }
    }
-/
def onSend (n : Nat) (hasCb : Bool) (st : BatchState) (comp : Completion) :
    BatchState × Option CbInvocation :=
  let st1 : BatchState := { st with completed := st.completed + 1 }
  if st1.calledback || !hasCb then (st1, none)
  else
    match comp with
    | .err e => ({ st1 with calledback := true }, some (.failure e))
    | .ok b =>
      let st2 : BatchState := { st1 with sentBytes := st1.sentBytes + b }
      if st2.completed = n then (st2, some (.success st2.sentBytes))
      else (st2, none)

/-- Run `onSend` over a list of completions in their arrival order,
collecting the final state and every aggregate-callback invocation made. -/
def runBatch (n : Nat) (hasCb : Bool) :
    BatchState → List Completion → BatchState × List CbInvocation
  | st, [] => (st, [])
  | st, comp :: rest =>
    let p := onSend n hasCb st comp
    let q := runBatch n hasCb p.1 rest
    (q.1, p.2.toList ++ q.2)

/-- The aggregate-callback invocations produced by a completion trace,
starting from the fresh state. -/
def batchInvocations (n : Nat) (hasCb : Bool) (trace : List Completion) :
    List CbInvocation :=
  (runBatch n hasCb initBatch trace).2

/-- A JavaScript runtime value, as far as the positional-parameter
disambiguation in `sendAll` can distinguish them: `undefined`, a number,
a string, an array (of tag strings), or a function (tagged by an
identifier). -/
inductive JVal where
  | undef
  | num (n : Rat)
  | str (s : String)
  | arr (xs : List String)
  | fn (k : Nat)
deriving DecidableEq

/-- JavaScript truthiness of a `JVal` (`undefined`, `0` and `''` are falsy;
arrays and functions are always truthy). -/
def JVal.truthy : JVal → Bool
  | .undef => false
  | .num n => n != 0
  | .str s => s != ""
  | .arr _ => true
  | .fn _ => true

/-- `typeof v === 'number'`. -/
def JVal.isNumber : JVal → Bool
  | .num _ => true
  | _ => false

/-- `Array.isArray(v)`. -/
def JVal.isArray : JVal → Bool
  | .arr _ => true
  | _ => false

/-- Embedding of the positional-parameter shifting at the top of
`Client.prototype.sendAll`, yielding the resolved
`(sampleRate, tags, callback)` triple:

    if(sampleRate && typeof sampleRate !== 'number'){
      callback = tags; tags = sampleRate; sampleRate = undefined;
    }
    if(tags && !Array.isArray(tags)){
      callback = tags; tags = undefined;
    }
-/
def resolveParams (sampleRate tags callback : JVal) : JVal × JVal × JVal :=
  let p : JVal × JVal × JVal :=
    if sampleRate.truthy && !sampleRate.isNumber then
      (JVal.undef, sampleRate, tags)
    else (sampleRate, tags, callback)
  if p.2.1.truthy && !p.2.1.isArray then
    (p.1, JVal.undef, p.2.1)
  else p

/-- Embedding of `-value || -1` in `Client.prototype.decrement` (restricted
to integer values; `-undefined` is `NaN` and `-0` is `-0`, both falsy, so
both fall back to `-1`). -/
def negOrMinusOne (value : Option Int) : Int :=
  match value with
  | some v => if -v = 0 then -1 else -v
  | none => -1

/-- Embedding of `Client.prototype.decrement` for a single stat name:
`sendAll(stat, -value || -1, 'c', …)`, which for a non-array stat delegates
straight to `send` with the caller's callback. -/
def Client.decrement (c : Client) (stat : String) (value : Option Int)
    (sampleRate : Option Rat) (rand : Rat) (tags : Option (List String))
    (hasCb : Bool) : SendOutcome :=
  c.send stat (negOrMinusOne value) "c" sampleRate rand tags hasCb

/-! ### Helper lemmas about the fan-out completion machine -/

theorem runBatch_nil (n : Nat) (hc : Bool) (st : BatchState) :
    runBatch n hc st [] = (st, []) := rfl

theorem runBatch_cons (n : Nat) (hc : Bool) (st : BatchState) (comp : Completion)
    (rest : List Completion) :
    runBatch n hc st (comp :: rest) =
      ((runBatch n hc (onSend n hc st comp).1 rest).1,
       (onSend n hc st comp).2.toList ++ (runBatch n hc (onSend n hc st comp).1 rest).2) :=
  rfl

theorem onSend_of_calledback (n : Nat) (hc : Bool) (st : BatchState) (comp : Completion)
    (h : st.calledback = true) :
    onSend n hc st comp = ({ st with completed := st.completed + 1 }, none) := by
  unfold onSend
  simp [h]

theorem onSend_err (n : Nat) (st : BatchState) (e : String)
    (h : st.calledback = false) :
    onSend n true st (.err e) =
      ({ completed := st.completed + 1, calledback := true,
         sentBytes := st.sentBytes }, some (.failure e)) := by
  unfold onSend
  simp [h]

theorem onSend_ok_below (n : Nat) (st : BatchState) (b : Nat)
    (h : st.calledback = false) (hlt : st.completed + 1 ≠ n) :
    onSend n true st (.ok b) =
      ({ completed := st.completed + 1, calledback := false,
         sentBytes := st.sentBytes + b }, none) := by
  unfold onSend
  simp [h, hlt]

theorem onSend_ok_last (n : Nat) (st : BatchState) (b : Nat)
    (h : st.calledback = false) (hn : st.completed + 1 = n) :
    onSend n true st (.ok b) =
      ({ completed := st.completed + 1, calledback := false,
         sentBytes := st.sentBytes + b }, some (.success (st.sentBytes + b))) := by
  unfold onSend
  simp [h, hn]

/-- Once `calledback` is set, no further completion produces an invocation. -/
theorem runBatch_of_calledback (n : Nat) (hc : Bool) :
    ∀ (trace : List Completion) (st : BatchState), st.calledback = true →
      (runBatch n hc st trace).2 = []
  | [], _, _ => rfl
  | comp :: rest, st, h => by
    rw [runBatch_cons, onSend_of_calledback n hc st comp h]
    simpa using runBatch_of_calledback n hc rest { st with completed := st.completed + 1 } h

/-- Running only successful completions while staying strictly below the
stat count makes no invocation and just advances the counters. -/
theorem runBatch_ok_below (n : Nat) :
    ∀ (bs : List Nat) (st : BatchState), st.calledback = false →
      st.completed + bs.length < n →
      runBatch n true st (bs.map .ok) =
        ({ completed := st.completed + bs.length, calledback := false,
           sentBytes := st.sentBytes + bs.sum }, [])
  | [], st, hcb, _ => by
    cases st
    simp_all [runBatch_nil]
  | b :: rest, st, hcb, hlt => by
    have hne : st.completed + 1 ≠ n := by
      simp only [List.length_cons] at hlt
      omega
    rw [List.map_cons, runBatch_cons, onSend_ok_below n st b hcb hne]
    rw [runBatch_ok_below n rest _ rfl (by simp only [List.length_cons] at hlt ⊢; omega)]
    have e1 : st.completed + 1 + rest.length = st.completed + (rest.length + 1) := by omega
    have e2 : st.sentBytes + b + rest.sum = st.sentBytes + (b + rest.sum) := by omega
    simp only [Option.toList_none, List.nil_append, List.length_cons, List.sum_cons, e1, e2]

/-- Running only successful completions that bring the counter exactly to
the stat count fires the aggregate success callback once, with the total. -/
theorem runBatch_ok_complete (n : Nat) :
    ∀ (bs : List Nat) (st : BatchState), st.calledback = false → bs ≠ [] →
      st.completed + bs.length = n →
      (runBatch n true st (bs.map .ok)).2 = [.success (st.sentBytes + bs.sum)]
  | [], _, _, hne, _ => absurd rfl hne
  | [b], st, hcb, _, hn => by
    have hn' : st.completed + 1 = n := by simpa using hn
    rw [List.map_cons, List.map_nil, runBatch_cons, onSend_ok_last n st b hcb hn']
    simp [runBatch_nil]
  | b :: b2 :: rest, st, hcb, _, hn => by
    have hne : st.completed + 1 ≠ n := by
      simp only [List.length_cons] at hn
      omega
    rw [List.map_cons, runBatch_cons, onSend_ok_below n st b hcb hne]
    have hrec := runBatch_ok_complete n (b2 :: rest)
      { completed := st.completed + 1, calledback := false,
        sentBytes := st.sentBytes + b }
      rfl (by simp) (by simp only [List.length_cons] at hn ⊢; omega)
    simp only [Option.toList_none, List.nil_append, hrec, List.sum_cons]
    have e2 : st.sentBytes + b + (b2 + rest.sum) = st.sentBytes + (b + (b2 + rest.sum)) := by
      omega
    simp [e2]

/-- As long as no more completions arrive than outstanding sends, the
aggregate callback fires at most once. -/
theorem runBatch_le_one (n : Nat) :
    ∀ (trace : List Completion) (st : BatchState), st.calledback = false →
      st.completed + trace.length ≤ n →
      (runBatch n true st trace).2.length ≤ 1
  | [], _, _, _ => by simp [runBatch_nil]
  | .err e :: rest, st, hcb, _ => by
    rw [runBatch_cons, onSend_err n st e hcb]
    have habs := runBatch_of_calledback n true rest
      { completed := st.completed + 1, calledback := true, sentBytes := st.sentBytes } rfl
    simp [habs]
  | .ok b :: rest, st, hcb, hle => by
    by_cases hn : st.completed + 1 = n
    · have hlen0 : rest.length = 0 := by
        simp only [List.length_cons] at hle
        omega
      have hrest : rest = [] := List.length_eq_zero.mp hlen0
      subst hrest
      rw [runBatch_cons, onSend_ok_last n st b hcb hn]
      simp [runBatch_nil]
    · rw [runBatch_cons, onSend_ok_below n st b hcb hn]
      have hrec := runBatch_le_one n rest
        { completed := st.completed + 1, calledback := false,
          sentBytes := st.sentBytes + b }
        rfl (by simp only [List.length_cons] at hle ⊢; omega)
      simpa using hrec

/-- `runBatch` splits over list append. -/
theorem runBatch_append (n : Nat) (hc : Bool) :
    ∀ (t1 t2 : List Completion) (st : BatchState),
      runBatch n hc st (t1 ++ t2) =
        ((runBatch n hc (runBatch n hc st t1).1 t2).1,
         (runBatch n hc st t1).2 ++ (runBatch n hc (runBatch n hc st t1).1 t2).2)
  | [], t2, st => by simp [runBatch_nil]
  | comp :: rest, t2, st => by
    simp only [List.cons_append, runBatch_cons, runBatch_append n hc rest t2]
    simp [List.append_assoc]

/-- A list whose members are all `ok` completions is the image of a byte list. -/
theorem exists_map_ok :
    ∀ (l : List Completion), (∀ comp ∈ l, ∃ b, comp = Completion.ok b) →
      ∃ bs : List Nat, l = bs.map Completion.ok
  | [], _ => ⟨[], rfl⟩
  | comp :: rest, h => by
    obtain ⟨b, hb⟩ := h comp (List.mem_cons_self _ _)
    obtain ⟨bs, hbs⟩ := exists_map_ok rest fun c hc => h c (List.mem_cons_of_mem _ hc)
    exact ⟨b :: bs, by simp [hb, hbs]⟩

/-- Every element of the second list of a zip is paired with some element of
the first, provided the first list is at least as long. -/
theorem exists_pair_mem_zip :
    ∀ (l1 : List String) (l2 : List Rat), l2.length ≤ l1.length →
      ∀ d ∈ l2, ∃ s, (s, d) ∈ l1.zip l2
  | _, [], _, _, hd => absurd hd (List.not_mem_nil _)
  | [], d2 :: _, hlen, _, _ => by simp at hlen
  | s1 :: l1, d2 :: l2, hlen, d, hd => by
    rcases List.mem_cons.mp hd with h | h
    · exact ⟨s1, by simp [h]⟩
    · obtain ⟨s, hs⟩ := exists_pair_mem_zip l1 l2 (by simpa using hlen) d h
      exact ⟨s, List.mem_cons_of_mem _ hs⟩

/-- A member falsifying the predicate makes the count strictly smaller than
the length. -/
theorem countP_lt_length {α : Type} (p : α → Bool) (l : List α) (x : α)
    (hmem : x ∈ l) (hx : p x = false) : l.countP p < l.length := by
  rcases Nat.lt_or_ge (l.countP p) l.length with h | h
  · exact h
  · have heq : l.countP p = l.length := le_antisymm (List.countP_le_length p) h
    have := List.countP_eq_length.mp heq x hmem
    rw [hx] at this
    cases this

/-! ### Concrete clients used by witnesses and counterexamples -/

/-- A client with a prefix and a suffix, not mock. -/
def clientPS : Client := ⟨"localhost", 8125, "p.", ".s", false⟩

/-- A client with empty prefix/suffix, not mock. -/
def plainClient : Client := ⟨"localhost", 8125, "", "", false⟩

/-- A client constructed in mock mode. -/
def mockClient : Client := ⟨"localhost", 8125, "", "", true⟩

/-! ### Claim theorems -/

/-- C1: for every stat name, value and type code, `send` with no sampleRate
and no tags on a non-mock client with prefix `p` and suffix `s` produces
exactly the line `p + name + s + ":" + value + "|" + type` (the value
stringified as-is, unvalidated) and hands the transport exactly one
datagram containing that line. -/
theorem send_base_line (c : Client) (stat : String) (v : Int) (ty : String)
    (rand : Rat) (hcb : Bool) (hmock : c.mock = false) :
    c.send stat v ty none rand none hcb =
      .transmitted (c.pre ++ stat ++ c.suf ++ ":" ++ toString v ++ "|" ++ ty) ∧
    (c.send stat v ty none rand none hcb).datagrams =
      [c.pre ++ stat ++ c.suf ++ ":" ++ toString v ++ "|" ++ ty] := by
  constructor <;> simp [Client.send, hmock, SendOutcome.datagrams]

theorem send_base_line_witness :
    clientPS.mock = false ∧
    clientPS.send "x" 7 "ms" none 0 none true = .transmitted "p.x.s:7|ms" ∧
    (clientPS.send "x" 7 "ms" none 0 none true).datagrams = ["p.x.s:7|ms"] := by
  have h := send_base_line clientPS "x" 7 "ms" 0 true rfl
  exact ⟨rfl, h.1.trans (by rfl), h.2.trans (by rfl)⟩

/-- C2: with a provided sample rate that is truthy and `< 1`, a draw `≥`
the rate drops the event — nothing handed to the transport, callback never
invoked — while a draw `<` the rate appends `"|@" + sampleRate` and sends;
with the rate exactly 1 the sampling branch is skipped entirely, so the send
behaves like a send without a sample rate (always sent, no `|@` suffix). -/
theorem send_sampling (c : Client) (stat : String) (v : Int) (ty : String)
    (r rand : Rat) (tags : Option (List String)) (hcb : Bool)
    (hr0 : r ≠ 0) (hr1 : r < 1) :
    (r ≤ rand → c.send stat v ty (some r) rand tags hcb = .dropped ∧
      (c.send stat v ty (some r) rand tags hcb).datagrams = [] ∧
      (c.send stat v ty (some r) rand tags hcb).callbackInvokedNow = false) ∧
    (rand < r → c.mock = false → tags = none →
      c.send stat v ty (some r) rand tags hcb =
        .transmitted (c.pre ++ stat ++ c.suf ++ ":" ++ toString v ++ "|" ++ ty
          ++ "|@" ++ ratToString r)) ∧
    c.send stat v ty (some 1) rand tags hcb = c.send stat v ty none rand tags hcb := by
  refine ⟨fun hge => ?_, fun hlt hmock htags => ?_, ?_⟩
  · have hnlt : ¬rand < r := not_lt.mpr hge
    refine ⟨?_, ?_, ?_⟩ <;>
      simp [Client.send, hr0, hr1, hnlt, SendOutcome.datagrams,
        SendOutcome.callbackInvokedNow]
  · subst htags
    simp [Client.send, hr0, hr1, hlt, hmock]
  · simp [Client.send]

theorem send_sampling_witness :
    (mkRat 1 2 ≠ 0) ∧ (mkRat 1 2 < 1) ∧
    plainClient.send "x" 1 "c" (some (mkRat 1 2)) (mkRat 3 4) none true = .dropped ∧
    plainClient.send "x" 1 "c" (some (mkRat 1 2)) (mkRat 1 4) none true =
      .transmitted "x:1|c|@1/2" ∧
    plainClient.send "x" 1 "c" (some 1) (mkRat 3 4) none true =
      plainClient.send "x" 1 "c" none (mkRat 3 4) none true := by
  have hdrop := send_sampling plainClient "x" 1 "c" (mkRat 1 2) (mkRat 3 4) none true
    (by decide) (by decide)
  have hpass := send_sampling plainClient "x" 1 "c" (mkRat 1 2) (mkRat 1 4) none true
    (by decide) (by decide)
  exact ⟨by decide, by decide, (hdrop.1 (by decide)).1,
    (hpass.2.1 (by decide) rfl rfl).trans (by decide), hdrop.2.2⟩

/-- C9: the tags branch of `send` triggers on any array value, including the
empty array: with `tags = []` the transmitted line still gets the tag
delimiter and ends in a bare `"|#"`, and in general the line ends in
`"|#"` followed by the comma-joined tags. -/
theorem send_empty_tags (c : Client) (stat : String) (v : Int) (ty : String)
    (rand : Rat) (hcb : Bool) (ts : List String) (hmock : c.mock = false) :
    c.send stat v ty none rand (some []) hcb =
      .transmitted (c.pre ++ stat ++ c.suf ++ ":" ++ toString v ++ "|" ++ ty ++ "|#") ∧
    c.send stat v ty none rand (some ts) hcb =
      .transmitted (c.pre ++ stat ++ c.suf ++ ":" ++ toString v ++ "|" ++ ty ++ "|#"
        ++ String.intercalate "," ts) := by
  constructor <;> simp [Client.send, hmock, String.intercalate]

theorem send_empty_tags_witness :
    plainClient.mock = false ∧
    plainClient.send "x" 1 "c" none 0 (some []) true = .transmitted "x:1|c|#" ∧
    plainClient.send "x" 1 "c" none 0 (some ["route:/x", "part:db"]) true =
      .transmitted "x:1|c|#route:/x,part:db" := by
  have h := send_base_line plainClient "x" 1 "c" 0 true rfl
  have h2 := send_empty_tags plainClient "x" 1 "c" 0 true ["route:/x", "part:db"] rfl
  exact ⟨rfl, h2.1.trans (by rfl), h2.2.trans (by rfl)⟩

/-- C5: the positional-parameter disambiguation in `sendAll` is a
deterministic total function (`resolveParams` is a Lean function, hence
both): for each of the eight call shapes — value only; value+sampleRate;
value+tags; value+sampleRate+tags; each with or without a trailing
callback — a non-numeric truthy value in the sampleRate slot moves to the
tags argument (and the next slot to callback), a non-array truthy value in
the tags slot moves to the callback, and each shape resolves unambiguously
to the same logical `(sampleRate, tags, callback)` triple. -/
theorem sendAll_param_shift (r : Rat) (ts : List String) (k : Nat) :
    resolveParams .undef .undef .undef = (.undef, .undef, .undef) ∧
    resolveParams (.num r) .undef .undef = (.num r, .undef, .undef) ∧
    resolveParams (.arr ts) .undef .undef = (.undef, .arr ts, .undef) ∧
    resolveParams (.num r) (.arr ts) .undef = (.num r, .arr ts, .undef) ∧
    resolveParams (.fn k) .undef .undef = (.undef, .undef, .fn k) ∧
    resolveParams (.num r) (.fn k) .undef = (.num r, .undef, .fn k) ∧
    resolveParams (.arr ts) (.fn k) .undef = (.undef, .arr ts, .fn k) ∧
    resolveParams (.num r) (.arr ts) (.fn k) = (.num r, .arr ts, .fn k) := by
  refine ⟨rfl, ?_, rfl, ?_, rfl, ?_, rfl, ?_⟩ <;>
    simp [resolveParams, JVal.truthy, JVal.isNumber, JVal.isArray]

/-- C7 counterexample: the claim says `decrement` with an explicit value `v`
sends the counter value `-v`, but at `v = 0` the source computes
`-value || -1` and `-0` is falsy in JavaScript, so the code sends `-1`
rather than `0`: `decrement("x", 0)` transmits `"x:-1|c"`, not `"x:0|c"`. -/
theorem decrement_zero_cex :
    plainClient.decrement "x" (some 0) none 0 none true = .transmitted "x:-1|c" ∧
    SendOutcome.transmitted "x:-1|c" ≠ SendOutcome.transmitted "x:0|c" := by
  exact ⟨by decide, by decide⟩

/-- C7 amended: `decrement` with no value sends the counter value `-1`;
with an explicit nonzero value `v` it sends `-v`; with the explicit value
`0` the `-value || -1` fallback also sends `-1` (not `0`). -/
theorem decrement_values (c : Client) (stat : String) (v : Int) (rand : Rat)
    (hcb : Bool) (hmock : c.mock = false) (hv : v ≠ 0) :
    c.decrement stat none none rand none hcb =
      .transmitted (c.pre ++ stat ++ c.suf ++ ":" ++ toString (-1 : Int) ++ "|" ++ "c") ∧
    c.decrement stat (some v) none rand none hcb =
      .transmitted (c.pre ++ stat ++ c.suf ++ ":" ++ toString (-v) ++ "|" ++ "c") ∧
    c.decrement stat (some 0) none rand none hcb =
      .transmitted (c.pre ++ stat ++ c.suf ++ ":" ++ toString (-1 : Int) ++ "|" ++ "c") := by
  have hnv : -v ≠ 0 := neg_ne_zero.mpr hv
  refine ⟨?_, ?_, ?_⟩ <;>
    simp [Client.decrement, negOrMinusOne, Client.send, hmock, hnv]

theorem decrement_values_witness :
    plainClient.mock = false ∧ (5 : Int) ≠ 0 ∧
    plainClient.decrement "x" none none 0 none true = .transmitted "x:-1|c" ∧
    plainClient.decrement "x" (some 5) none 0 none true = .transmitted "x:-5|c" ∧
    plainClient.decrement "x" (some 0) none 0 none true = .transmitted "x:-1|c" := by
  have h := decrement_values plainClient "x" 5 0 true rfl (by decide)
  exact ⟨rfl, by decide, h.1.trans (by decide), h.2.1.trans (by decide),
    h.2.2.trans (by decide)⟩

/-- C6 counterexample: the claim says every operation on a mock client with
a callback invokes it with `(null, 0)`, but the sampling early-return runs
before the mock check: a mock client sending with sample rate `1/2` and a
random draw of `3/4` drops the event and never invokes the callback. -/
theorem mock_sampled_drop_cex :
    mockClient.mock = true ∧
    mockClient.send "x" 1 "c" (some (mkRat 1 2)) (mkRat 3 4) none true = .dropped ∧
    SendOutcome.dropped ≠ SendOutcome.mockInvoke ∧
    SendOutcome.dropped.callbackInvokedNow = false := by
  exact ⟨rfl, by decide, by decide, rfl⟩

/-- C6 amended: on a mock client no bytes are ever handed to the transport
(no outcome is `transmitted`, so no transmission error can reach the
caller), and whenever a callback is supplied and the event is not dropped
by the sampling branch, the callback is invoked with `(null, 0)`. -/
theorem mock_no_transport (c : Client) (stat : String) (v : Int) (ty : String)
    (r : Option Rat) (rand : Rat) (tags : Option (List String)) (hcb : Bool)
    (hmock : c.mock = true) :
    (c.send stat v ty r rand tags hcb).datagrams = [] ∧
    (∀ m : String, c.send stat v ty r rand tags hcb ≠ .transmitted m) ∧
    (hcb = true → c.send stat v ty r rand tags hcb ≠ .dropped →
      c.send stat v ty r rand tags hcb = .mockInvoke) := by
  have hout : c.send stat v ty r rand tags hcb = .dropped ∨
      c.send stat v ty r rand tags hcb = (if hcb then .mockInvoke else .mockSilent) := by
    unfold Client.send
    rcases r with _ | rr
    · right
      simp [hmock]
    · by_cases h1 : rr ≠ 0 ∧ rr < 1
      · by_cases h2 : rand < rr
        · right
          simp [hmock, h1, h2]
        · left
          simp [h1, h2]
      · right
        simp [hmock, h1]
  rcases hout with h | h
  · refine ⟨by simp [h, SendOutcome.datagrams], by simp [h], fun _ hnd => absurd h hnd⟩
  · rcases hcb with _ | _
    · simp only [if_neg Bool.false_ne_true] at h
      refine ⟨by simp [h, SendOutcome.datagrams], by simp [h], fun hfalse _ => by cases hfalse⟩
    · simp only [if_pos rfl] at h
      exact ⟨by simp [h, SendOutcome.datagrams], by simp [h], fun _ _ => h⟩

theorem mock_no_transport_witness :
    mockClient.mock = true ∧
    (mockClient.send "x" 1 "c" none 0 none true).datagrams = [] ∧
    mockClient.send "x" 1 "c" none 0 none true = .mockInvoke := by
  have h := mock_no_transport mockClient "x" 1 "c" none 0 none true rfl
  exact ⟨rfl, h.1, h.2.2 rfl (by decide)⟩

/-- C8: `sendAll` over an empty list of names performs no individual sends
(the fan-out hands nothing to the transport), so no completions can arrive,
and a completion trace bounded by the number of sends (hence empty) never
invokes the aggregate callback. -/
theorem sendAll_empty_names (c : Client) (v : Int) (ty : String)
    (r : Option Rat) (draws : List Rat) (tags : Option (List String)) :
    c.sendAllFan [] v ty r draws tags = [] ∧
    (∀ trace : List Completion,
      trace.length ≤ (c.sendAllFan [] v ty r draws tags).length →
      batchInvocations 0 true trace = []) := by
  refine ⟨rfl, fun trace hlen => ?_⟩
  have htrace : trace = [] := List.length_eq_zero.mp (Nat.le_zero.mp hlen)
  subst htrace
  rfl

theorem sendAll_empty_names_witness :
    plainClient.sendAllFan [] 1 "c" none [] none = [] ∧
    batchInvocations 0 true [] = [] := by
  have h := sendAll_empty_names plainClient 1 "c" none [] none
  exact ⟨h.1, h.2 [] (by decide)⟩

/-- C3: for a non-empty list of stat names whose individual sends all
complete without error, the aggregate callback fires exactly once with
`(null, sum of byte counts)`, and the result is the same for every arrival
order of the individual completions (any permutation of the byte counts). -/
theorem sendAll_success_aggregation (stats : List String) (bs bs' : List Nat)
    (hne : stats ≠ []) (hlen : bs.length = stats.length) (hperm : bs.Perm bs') :
    batchInvocations stats.length true (bs.map .ok) = [.success bs.sum] ∧
    batchInvocations stats.length true (bs'.map .ok) = [.success bs.sum] := by
  have hbs : bs ≠ [] := by
    intro h
    subst h
    exact hne (List.length_eq_zero.mp hlen.symm)
  have hbs' : bs' ≠ [] := by
    intro h
    subst h
    exact hbs (List.eq_nil_of_length_eq_zero (hperm.length_eq.trans rfl))
  constructor
  · have h := runBatch_ok_complete stats.length bs initBatch rfl hbs
      (by simpa [initBatch] using hlen)
    simpa [batchInvocations, initBatch] using h
  · have h := runBatch_ok_complete stats.length bs' initBatch rfl hbs'
      (by simp only [initBatch, Nat.zero_add]; rw [← hperm.length_eq]; exact hlen)
    rw [← hperm.sum_eq] at h
    simpa [batchInvocations, initBatch] using h

theorem sendAll_success_aggregation_witness :
    (["a", "b", "c"] : List String) ≠ [] ∧
    ([5, 6, 7] : List Nat).length = (["a", "b", "c"] : List String).length ∧
    ([5, 6, 7] : List Nat).Perm [7, 5, 6] ∧
    batchInvocations 3 true [.ok 5, .ok 6, .ok 7] = [.success 18] ∧
    batchInvocations 3 true [.ok 7, .ok 5, .ok 6] = [.success 18] := by
  have h := sendAll_success_aggregation ["a", "b", "c"] [5, 6, 7] [7, 5, 6]
    (by decide) (by decide) (by decide)
  exact ⟨by decide, by decide, by decide, h.1, h.2⟩

/-- C4: over any completion trace no longer than the number of names, the
aggregate callback fires at most once; moreover when the first error is
preceded only by successful completions, that error fires the callback with
exactly that error, and every completion after it — error or success —
produces no further invocation. -/
theorem sendAll_at_most_once (n : Nat) (trace pre post : List Completion)
    (e : String) (hlen : trace.length ≤ n)
    (hlen2 : pre.length + 1 + post.length ≤ n)
    (hpre : ∀ comp ∈ pre, ∃ b, comp = Completion.ok b) :
    (batchInvocations n true trace).length ≤ 1 ∧
    batchInvocations n true (pre ++ Completion.err e :: post) = [.failure e] := by
  constructor
  · exact runBatch_le_one n trace initBatch rfl (by simpa [initBatch] using hlen)
  · obtain ⟨bs, hbs⟩ := exists_map_ok pre hpre
    subst hbs
    have hbelow := runBatch_ok_below n bs initBatch rfl
      (by simp only [initBatch, Nat.zero_add]; simp only [List.length_map] at hlen2; omega)
    unfold batchInvocations
    rw [runBatch_append, hbelow]
    simp only [List.nil_append]
    rw [runBatch_cons, onSend_err n _ e rfl]
    have habs := runBatch_of_calledback n true post
      { completed := initBatch.completed + bs.length + 1, calledback := true,
        sentBytes := initBatch.sentBytes + bs.sum } rfl
    simp [habs]

theorem sendAll_at_most_once_witness :
    ([Completion.ok 5, Completion.err "boom", Completion.ok 7].length ≤ 3) ∧
    ([Completion.ok 5].length + 1 + [Completion.ok 7].length ≤ 3) ∧
    (batchInvocations 3 true [.ok 5, .err "boom", .ok 7]).length ≤ 1 ∧
    batchInvocations 3 true ([.ok 5] ++ .err "boom" :: [.ok 7]) = [.failure "boom"] := by
  have h := sendAll_at_most_once 3 [.ok 5, .err "boom", .ok 7] [.ok 5] [.ok 7] "boom"
    (by decide) (by decide)
    (by
      intro comp hcomp
      simp only [List.mem_singleton] at hcomp
      exact ⟨5, hcomp⟩)
  exact ⟨by decide, by decide, h.1, h.2⟩

/-- C10: in a multi-name `sendAll` with a truthy sample rate `< 1`, any name
whose draw is `≥` the rate is dropped before its callback could ever run, so
fewer non-dropped sends exist than names; consequently the completed count
can never reach the name count, and any all-success completion trace bounded
by the number of non-dropped sends never invokes the aggregate callback. -/
theorem sendAll_sampled_starvation (c : Client) (stats : List String) (v : Int)
    (ty : String) (r : Rat) (draws : List Rat) (tags : Option (List String))
    (hlen : draws.length = stats.length) (hr0 : r ≠ 0) (hr1 : r < 1)
    (hd : ∃ d ∈ draws, r ≤ d) :
    ((c.sendAllFan stats v ty (some r) draws tags).countP
        fun o => !o.isDropped) < stats.length ∧
    (∀ bs : List Nat,
      bs.length ≤ ((c.sendAllFan stats v ty (some r) draws tags).countP
        fun o => !o.isDropped) →
      batchInvocations stats.length true (bs.map .ok) = []) := by
  obtain ⟨d, hdmem, hdge⟩ := hd
  obtain ⟨s, hs⟩ := exists_pair_mem_zip stats draws (le_of_eq hlen) d hdmem
  have hdrop : c.send s v ty (some r) d tags true = .dropped := by
    have hnlt : ¬d < r := not_lt.mpr hdge
    simp [Client.send, hr0, hr1, hnlt]
  have hmem : SendOutcome.dropped ∈ c.sendAllFan stats v ty (some r) draws tags := by
    unfold Client.sendAllFan
    rw [← hdrop]
    exact List.mem_map_of_mem _ hs
  have hcount :
      ((c.sendAllFan stats v ty (some r) draws tags).countP
        fun o => !o.isDropped) < stats.length := by
    have hlt := countP_lt_length (fun o => !o.isDropped)
      (c.sendAllFan stats v ty (some r) draws tags) .dropped hmem
      (by simp [SendOutcome.isDropped])
    have hlenfan : (c.sendAllFan stats v ty (some r) draws tags).length
        = stats.length := by
      unfold Client.sendAllFan
      rw [List.length_map, List.length_zip, hlen, Nat.min_self]
    exact hlenfan ▸ hlt
  refine ⟨hcount, fun bs hbs => ?_⟩
  have hbelow := runBatch_ok_below stats.length bs initBatch rfl
    (by simp only [initBatch, Nat.zero_add]; omega)
  unfold batchInvocations
  rw [hbelow]

theorem sendAll_sampled_starvation_witness :
    ([(0 : Rat), mkRat 3 4].length = (["a", "b"] : List String).length) ∧
    (mkRat 1 2 ≠ 0) ∧ (mkRat 1 2 < 1) ∧
    ((plainClient.sendAllFan ["a", "b"] 1 "c" (some (mkRat 1 2)) [0, mkRat 3 4] none).countP
        fun o => !o.isDropped) < 2 ∧
    batchInvocations 2 true [Completion.ok 5] = [] := by
  have h := sendAll_sampled_starvation plainClient ["a", "b"] 1 "c"
    (mkRat 1 2) [0, mkRat 3 4] none (by decide) (by decide) (by decide)
    ⟨mkRat 3 4, by decide, by decide⟩
  refine ⟨by decide, by decide, by decide, h.1, ?_⟩
  have h2 := h.2 [5] (by decide)
  simpa using h2
